import Mathlib

set_option maxRecDepth 20000

/- Shallow embedding of the per-test log lifecycle manager of
   multi-app-playwright-test-platform: the string helpers of
   src/utils/log_helpers.py and the pytest hooks of src/conftest.py.
   Strings are modelled as `List Char`, filesystem paths as lists of path
   segments, and the filesystem as finite sets of directory and file paths. -/

/-- Python `str.replace("/", "-")`, applied characterwise
    (src/utils/log_helpers.py line 41). -/
def slashToHyphen (c : Char) : Char := if c = '/' then '-' else c

/-- Python `re.sub(r"-+", "-", s)` (src/utils/log_helpers.py line 42):
    collapse every maximal run of hyphens into a single hyphen (the
    representative kept is the last hyphen of each run, which is the same
    character). -/
def collapseHyphens : List Char → List Char
  | [] => []
  | [c] => [c]
  | c :: d :: rest =>
    if c = '-' ∧ d = '-' then collapseHyphens (d :: rest)
    else c :: collapseHyphens (d :: rest)

/-- Python `node_id.split("::")` (src/utils/log_helpers.py line 40):
    split on non-overlapping occurrences of the two-character delimiter,
    scanning left to right; the result is never the empty list. -/
def splitOnSep : List Char → List (List Char)
  | [] => [[]]
  | ':' :: ':' :: rest => [] :: splitOnSep rest
  | c :: rest =>
    match splitOnSep rest with
    | t :: ts => (c :: t) :: ts
    | [] => [[c]]

/-- Python `tokens[-1] = f(tokens[-1])`: apply `f` to the last element of a
    list, leaving the other elements unchanged. -/
def mapLastTok (f : List Char → List Char) : List (List Char) → List (List Char)
  | [] => []
  | [t] => [f t]
  | t :: rest => t :: mapLastTok f rest

/-- Helper for the regex `\[(.+)\]`: given the characters after a `[`,
    return the greedy match of `(.+)\]` — the content before the last `]`
    in the newline-free prefix (Python `.` does not match a newline), and
    the remainder after that `]`.  `none` when no `]` is reachable.  The
    returned content may be empty; the caller rejects that case because
    `.+` needs at least one character. -/
def splitAtLastClose : List Char → Option (List Char × List Char)
  | [] => none
  | '\n' :: _ => none
  | c :: rest =>
    match splitAtLastClose rest with
    | some (content, rem) => some (c :: content, rem)
    | none => if c = ']' then some ([], rest) else none

/-- Python `re.sub(r"\[(.+)\]", r"-\1", s)` (src/utils/log_helpers.py
    line 44), fuelled so that the definition is structurally recursive:
    scan left to right; at each `[` try the greedy match of `(.+)\]`; on a
    match emit `-` followed by the content and resume after the `]`
    (replacements are not rescanned); otherwise keep the character.  Each
    recursive call consumes at least one character, so fuel equal to the
    length of the list always suffices. -/
def bracketSubAux : Nat → List Char → List Char
  | _, [] => []
  | 0, l => l
  | fuel + 1, '[' :: rest =>
    match splitAtLastClose rest with
    | some (content, rem) =>
      if content = [] then '[' :: bracketSubAux fuel rest
      else '-' :: (content ++ bracketSubAux fuel rem)
    | none => '[' :: bracketSubAux fuel rest
  | fuel + 1, c :: rest => c :: bracketSubAux fuel rest

/-- Python `re.sub(r"\[(.+)\]", r"-\1", s)`. -/
def bracketSub (l : List Char) : List Char := bracketSubAux l.length l

/-- The literal token `"()"` dropped by `sanitize_nodeid`. -/
def emptyParen : List Char := ['(', ')']

/-- src/utils/log_helpers.py lines 38-44 (identical code in
    src/conftest.py lines 179-189):
    split the nodeid on `"::"`; in the last token replace `/` by `-` and
    collapse hyphen runs; drop tokens equal to `"()"`; rejoin with `/`;
    finally rewrite each bracketed group `[...]` to `-...`. -/
def sanitize_nodeid (node_id : List Char) : List Char :=
  let tokens := splitOnSep node_id
  let tokens2 := mapLastTok (fun t => collapseHyphens (t.map slashToHyphen)) tokens
  let joined := List.intercalate ['/'] (tokens2.filter (fun t => t != emptyParen))
  bracketSub joined

/-- src/utils/log_helpers.py lines 47-49: `node_id.rsplit("/", maxsplit=1)[-1]`,
    the suffix after the last `/` (the whole string when there is no `/`).
    src/conftest.py line 203 computes the same value via `split("/")[-1]`. -/
def get_last_element (node_id : List Char) : List Char :=
  (node_id.reverse.takeWhile (fun c => c != '/')).reverse

/-- Python slicing `s[:n]` for an `int` bound `n`: for `n ≥ 0` keep the
    first `n` characters; for negative `n` drop the last `|n|` characters
    (never fewer than zero characters kept). -/
def pySliceTo (s : List Char) (n : Int) : List Char :=
  if 0 ≤ n then s.take n.toNat else s.take (s.length - n.natAbs)

/-- src/utils/log_helpers.py lines 52-59.  The xdist worker id read from
    the environment variable `PYTEST_XDIST_WORKER` is passed as the
    `worker_id` argument (empty when running single-process). -/
def build_log_filename (test_name : List Char) (worker_id : List Char) : List Char :=
  let pfx := if worker_id ≠ [] then worker_id ++ ['_'] else []
  let maxNameLength : Int := 255 - pfx.length - (".log".toList).length
  let truncated := pySliceTo test_name maxNameLength
  pfx ++ truncated ++ (".log".toList)

/-- The string constant `LOG_DIR = "test-logs"` of src/conftest.py line 24. -/
def LOG_DIR_NAME : List Char := "test-logs".toList

/-- The log filename computed by `pytest_runtest_setup`
    (src/conftest.py lines 221-226): the sanitized last segment truncated
    to `255 - len(LOG_DIR) - 5` characters, plus `".log"`. -/
def setup_log_filename (nodeid : List Char) : List Char :=
  let test_name := get_last_element (sanitize_nodeid nodeid)
  let truncated := pySliceTo test_name (255 - (LOG_DIR_NAME.length : Int) - 5)
  truncated ++ (".log".toList)

/-- The log filename recomputed by `pytest_runtest_logreport`
    (src/conftest.py lines 280-281): the sanitized last segment, with no
    truncation, plus `".log"`. -/
def report_log_filename (nodeid : List Char) : List Char :=
  get_last_element (sanitize_nodeid nodeid) ++ (".log".toList)

/-- Does the string contain the substring `"::"`? -/
def hasDoubleColon : List Char → Bool
  | [] => false
  | c :: rest => (c == ':' && rest.head? == some ':') || hasDoubleColon rest

/-- Does the string contain two adjacent hyphens? -/
def noAdjHyphens : List Char → Bool
  | [] => true
  | [_] => true
  | c :: d :: rest => !(c == '-' && d == '-') && noAdjHyphens (d :: rest)

/- ── Filesystem model ──────────────────────────────────────────────────
   A path is a list of segments; the filesystem is a finite set of
   directory paths plus a finite set of file paths. -/

abbrev DirPath := List (List Char)

/-- `LOG_DIR = Path("test-logs")` (src/utils/log_helpers.py line 13). -/
def LOG_DIR : DirPath := [LOG_DIR_NAME]

/-- `FAILED_LOG_DIR = LOG_DIR / "failed_tests"` (log_helpers.py line 14). -/
def FAILED_LOG_DIR : DirPath := [LOG_DIR_NAME, "failed_tests".toList]

/-- `SCREENSHOTS_DIR = LOG_DIR / "screenshots"` (log_helpers.py line 15). -/
def SCREENSHOTS_DIR : DirPath := [LOG_DIR_NAME, "screenshots".toList]

/-- `TRACES_DIR = LOG_DIR / "traces"` (log_helpers.py line 16). -/
def TRACES_DIR : DirPath := [LOG_DIR_NAME, "traces".toList]

/-- The filesystem state: existing directories and existing files. -/
structure FS where
  dirs : Finset DirPath
  files : Finset DirPath
  deriving DecidableEq

/-- `shutil.rmtree(d)`: remove the directory and everything beneath it
    (every path of which `d` is a segmentwise prefix). -/
def rmtree (d : DirPath) (fs : FS) : FS :=
  { dirs := fs.dirs.filter (fun p => d.isPrefixOf p = false),
    files := fs.files.filter (fun p => d.isPrefixOf p = false) }

/-- The state change of a successful `Path.mkdir`: insert the directory
    (a no-op when it already exists); with `parents` also insert the
    parent directory.  The parent-existence check of `parents=False` is
    omitted: the only such call is for `LOG_DIR`, whose parent is the
    working directory. -/
def mkdirA (parents : Bool) (d : DirPath) (fs : FS) : FS :=
  if d ∈ fs.dirs then fs
  else { fs with dirs := if parents then insert d (insert d.dropLast fs.dirs)
                         else insert d fs.dirs }

/-- `Path.mkdir(parents=…, exist_ok=…)`: raises `FileExistsError` when the
    directory exists and `exist_ok` is false; otherwise creates it
    (create-if-absent, not create-exclusive). -/
def mkdir (parents existOk : Bool) (d : DirPath) (fs : FS) : Except Unit FS :=
  if d ∈ fs.dirs ∧ existOk = false then .error () else .ok (mkdirA parents d fs)

/-- src/utils/log_helpers.py lines 30-35: create the four artifact
    directories if missing; never deletes. -/
def ensure_log_dirs_exist (fs : FS) : Except Unit FS := do
  let fs1 ← mkdir false true LOG_DIR fs
  let fs2 ← mkdir true true FAILED_LOG_DIR fs1
  let fs3 ← mkdir true true SCREENSHOTS_DIR fs2
  mkdir true true TRACES_DIR fs3

/-- src/utils/log_helpers.py lines 19-27: remove the existing log tree if
    present, then recreate all four artifact directories. -/
def clean_and_create_log_dirs (fs : FS) : Except Unit FS := do
  let fs0 := if LOG_DIR ∈ fs.dirs then rmtree LOG_DIR fs else fs
  let fs1 ← mkdir false true LOG_DIR fs0
  let fs2 ← mkdir true true FAILED_LOG_DIR fs1
  let fs3 ← mkdir true true SCREENSHOTS_DIR fs2
  mkdir true true TRACES_DIR fs3

/-- One `mkdir` call of a (possibly concurrent) worker:
    (parents flag, exist_ok flag, directory). -/
abbrev Step := Bool × Bool × DirPath

/-- Run a sequence of `mkdir` calls against a shared filesystem; an error
    from any call aborts (models an uncaught exception in that worker). -/
def runSteps : List Step → FS → Except Unit FS
  | [], fs => .ok fs
  | s :: rest, fs =>
    match mkdir s.1 s.2.1 s.2.2 fs with
    | .ok fs1 => runSteps rest fs1
    | .error e => .error e

/-- The four `mkdir` calls performed by one `ensure_log_dirs_exist()`
    call, in program order (src/utils/log_helpers.py lines 32-35).  An
    interleaved schedule of several workers is any sequence that draws its
    steps from this list and contains each of them. -/
def ensureSteps : List Step :=
  [(false, true, LOG_DIR), (true, true, FAILED_LOG_DIR),
   (true, true, SCREENSHOTS_DIR), (true, true, TRACES_DIR)]

/- ── Logging-target model ──────────────────────────────────────────────
   The process-wide root logger carries a list of handlers (sinks).  A
   sink is either file-backed (a `logging.FileHandler` with its path) or
   not (any other handler kind). -/

/-- A sink registered on the process-wide logging target. -/
structure Sink where
  isFile : Bool
  path : DirPath
  deriving DecidableEq

/-- The file sink that `pytest_runtest_setup` creates for a test:
    a `FileHandler` at `os.path.join(LOG_DIR, truncated_test_name + ".log")`. -/
def newFileSink (nodeid : List Char) : Sink :=
  { isFile := true, path := [LOG_DIR_NAME, setup_log_filename nodeid] }

/-- src/conftest.py lines 207-237, effect on the root logger's sink list:
    `logger.handlers = []` discards every registered handler, then
    `logger.addHandler(handler)` registers the fresh per-test file sink.
    (Setting the level to INFO and emitting the "Starting test" record do
    not change the sink list and are not modelled.) -/
def pytest_runtest_setup (handlers : List Sink) (nodeid : List Char) : List Sink :=
  let cleared : List Sink := []
  cleared ++ [newFileSink nodeid]

/-- The loop of src/conftest.py lines 259-262, iterating over a copy of
    the handler list: close every `FileHandler` (the oracle `closeRaises`
    tells which `close()` calls raise; an uncaught exception aborts the
    hook) and remove it from the live list. -/
def closeLoop (closeRaises : Sink → Bool) : List Sink → List Sink → Except Unit (List Sink)
  | [], acc => .ok acc
  | h :: rest, acc =>
    if h.isFile then
      if closeRaises h then .error ()
      else closeLoop closeRaises rest (acc.erase h)
    else closeLoop closeRaises rest acc

/-- src/conftest.py lines 240-262, effect on the root logger's sink list:
    emit the "Finished test" record (not modelled), then close and remove
    every `FileHandler`.  There is no try/except around the loop. -/
def pytest_runtest_teardown (closeRaises : Sink → Bool) (handlers : List Sink) :
    Except Unit (List Sink) :=
  closeLoop closeRaises handlers handlers

/- ── Failure relocation ────────────────────────────────────────────── -/

/-- A pytest test report: nodeid, phase (`"setup"`, `"call"` or
    `"teardown"`), and whether the phase failed. -/
structure Report where
  nodeid : List Char
  whenPhase : List Char
  failed : Bool
  deriving DecidableEq

/-- The phase string `"call"`. -/
def callPhase : List Char := "call".toList

/-- `os.path.join(LOG_DIR, f"{test_name}.log")` of src/conftest.py line 281. -/
def report_src (r : Report) : DirPath :=
  [LOG_DIR_NAME, report_log_filename r.nodeid]

/-- `os.path.join(FAILED_LOG_DIR, f"{test_name}.log")` of src/conftest.py
    line 282: same filename, different parent. -/
def report_dst (r : Report) : DirPath :=
  [LOG_DIR_NAME, "failed_tests".toList, report_log_filename r.nodeid]

/-- src/conftest.py lines 266-284: on a failed call-phase report, if the
    primary log file exists, `os.rename` it into the failed-tests
    directory (remove the source path, add the destination path);
    otherwise do nothing. -/
def pytest_runtest_logreport (fs : FS) (r : Report) : FS :=
  if r.whenPhase = callPhase ∧ r.failed = true then
    if report_src r ∈ fs.files then
      { fs with files := insert (report_dst r) (fs.files.erase (report_src r)) }
    else fs
  else fs

/-- Well-formedness of a filesystem state: paths under the artifact tree
    (first segment `"test-logs"`) exist only when the artifact root
    directory itself exists. -/
def wfFS (fs : FS) : Prop :=
  (∀ f ∈ fs.files, f.head? = some LOG_DIR_NAME → LOG_DIR ∈ fs.dirs) ∧
  (∀ d ∈ fs.dirs, d.head? = some LOG_DIR_NAME → LOG_DIR ∈ fs.dirs)

/-- The empty filesystem: no directories, no files. -/
def emptyFS : FS := ⟨∅, ∅⟩

/-- A concrete interleaving of the `ensure_log_dirs_exist()` call
    sequences of two workers (each worker's four steps appear in program
    order). -/
def twoWorkerSchedule : List Step :=
  [(false, true, LOG_DIR), (false, true, LOG_DIR),
   (true, true, FAILED_LOG_DIR), (true, true, SCREENSHOTS_DIR),
   (true, true, FAILED_LOG_DIR), (true, true, TRACES_DIR),
   (true, true, SCREENSHOTS_DIR), (true, true, TRACES_DIR)]

/- ── Theorems ────────────────────────────────────────────────────────── -/

/-- C1 counterexample: attaching the per-test log sink is not additive.
    With one sink already registered on the root logging target (here a
    non-file sink, e.g. the default stream handler), that sink is no
    longer registered after `pytest_runtest_setup` runs: the hook clears
    the whole handler list before adding its own file sink. -/
theorem c1_counterexample :
    (⟨false, []⟩ : Sink) ∈ ([⟨false, []⟩] : List Sink) ∧
    (⟨false, []⟩ : Sink) ∉ pytest_runtest_setup [⟨false, []⟩] ("m".toList) := by
  decide

/-- C2: the filename `pytest_runtest_setup` uses and the filename
    `pytest_runtest_logreport` recomputes disagree on the failing input, a
    nodeid of 300 `x` characters.  Setup truncates the sanitized last
    segment to 241 characters while the relocator does not truncate at
    all, so the relocator looks up a file the sink never wrote. -/
theorem c2_code_bug :
    setup_log_filename (List.replicate 300 'x')
      = List.replicate 241 'x' ++ (".log".toList) ∧
    report_log_filename (List.replicate 300 'x')
      = List.replicate 300 'x' ++ (".log".toList) ∧
    setup_log_filename (List.replicate 300 'x')
      ≠ report_log_filename (List.replicate 300 'x') := by
  refine ⟨by decide, by decide, by decide⟩

/-- C3 counterexample: the sanitizer is not idempotent.  On `"a::b"` one
    application yields `"a/b"` and a second yields `"a-b"`; on `"x-[a]"`
    one application yields `"x--a"` and a second yields `"x-a"`. -/
theorem c3_counterexample :
    sanitize_nodeid (sanitize_nodeid ("a::b".toList))
      ≠ sanitize_nodeid ("a::b".toList) ∧
    sanitize_nodeid (sanitize_nodeid ("x-[a]".toList))
      ≠ sanitize_nodeid ("x-[a]".toList) := by
  decide

/-- C4 counterexample: on `"tests/mod.py::TestX::test_y[case-1]"` the
    sanitizer does not return `"tests/mod.py-TestX-test_y-case-1"` (the
    code rejoins segments with `/`, it does not hyphenate them), and the
    last segment of the sanitized value is not
    `"mod.py-TestX-test_y-case-1"`. -/
theorem c4_counterexample :
    sanitize_nodeid ("tests/mod.py::TestX::test_y[case-1]".toList)
      ≠ ("tests/mod.py-TestX-test_y-case-1".toList) ∧
    get_last_element (sanitize_nodeid ("tests/mod.py::TestX::test_y[case-1]".toList))
      ≠ ("mod.py-TestX-test_y-case-1".toList) := by
  decide

/-- C4 amended: on `"tests/mod.py::TestX::test_y[case-1]"` the sanitizer
    returns `"tests/mod.py/TestX/test_y-case-1"` — only the bracketed
    suffix is hyphen-flattened, the `::` delimiters become `/` — and
    `get_last_element` of that value returns `"test_y-case-1"`. -/
theorem c4_amended :
    sanitize_nodeid ("tests/mod.py::TestX::test_y[case-1]".toList)
      = ("tests/mod.py/TestX/test_y-case-1".toList) ∧
    get_last_element (sanitize_nodeid ("tests/mod.py::TestX::test_y[case-1]".toList))
      = ("test_y-case-1".toList) := by
  decide

/-- C5 counterexample: the truncation length does not floor at zero.
    With a 252-character worker tag the remaining budget is `-2`, and the
    Python slice `test_name[:-2]` keeps 298 of 300 characters instead of
    none, so the filename has length 555, far beyond the claimed 255
    bound. -/
theorem c5_counterexample :
    (build_log_filename (List.replicate 300 'x') (List.replicate 252 'w')).length = 555 ∧
    ¬ (build_log_filename (List.replicate 300 'x') (List.replicate 252 'w')).length ≤ 255 := by
  refine ⟨by decide, by decide⟩

/-- C7 counterexample: teardown does not catch errors from closing the
    log sink.  With one registered file sink whose `close()` raises, the
    hook propagates the exception to its caller. -/
theorem c7_counterexample :
    pytest_runtest_teardown (fun _ => true) [⟨true, []⟩] = .error () := rfl

/-- C10 counterexample: the derived log-file base name can contain the
    substring `"::"`.  On input `"[a:]:b"` the greedy bracket rewrite
    produces `"-a::b"`, whose last segment is itself and contains `"::"`. -/
theorem c10_counterexample :
    get_last_element (sanitize_nodeid ("[a:]:b".toList)) = ("-a::b".toList) ∧
    hasDoubleColon (get_last_element (sanitize_nodeid ("[a:]:b".toList))) = true := by
  decide

/-- The length of `".log"` as a character list. -/
theorem dotLog_length : (".log".toList).length = 4 := rfl


/-- C5 amended: whenever the worker tag has at most 250 characters (so
    the remaining name budget is non-negative), the built filename is at
    most 255 characters long and ends in `".log"`; when the prefix alone
    exhausts the budget (a 250-character tag) the name part is empty and
    the result is exactly `worker_tag ++ "_" ++ ".log"`.  For longer
    worker tags the Python slice bound goes negative and keeps a
    suffix-trimmed name instead of an empty one, so the claimed
    unconditional flooring at zero (and with it the 255 bound) fails —
    see the counterexample. -/
theorem c5_amended (test_name worker_tag : List Char) (h : worker_tag.length ≤ 250) :
    (build_log_filename test_name worker_tag).length ≤ 255 ∧
    (∃ s, build_log_filename test_name worker_tag = s ++ (".log".toList)) ∧
    (worker_tag.length = 250 →
      build_log_filename test_name worker_tag = worker_tag ++ '_' :: (".log".toList)) := by
  by_cases hw : worker_tag = []
  · subst hw
    simp only [build_log_filename, pySliceTo, dotLog_length]
    norm_num
    omega
  · simp only [build_log_filename, pySliceTo, dotLog_length, if_pos hw, ne_eq]
    have hnn : (0 : Int) ≤ 255 - ((worker_tag ++ ['_']).length : Int) - ((4 : Nat) : Int) := by
      simp only [List.length_append, List.length_cons, List.length_nil]
      push_cast
      omega
    rw [if_pos hnn]
    have htn : ((255 : Int) - ((worker_tag ++ ['_']).length : Int) - ((4 : Nat) : Int)).toNat
        = 250 - worker_tag.length := by
      simp only [List.length_append, List.length_cons, List.length_nil]
      omega
    refine ⟨?_, ⟨_, rfl⟩, ?_⟩
    · simp only [List.length_append, List.length_take, dotLog_length, htn,
        List.length_cons, List.length_nil]
      omega
    · intro h250
      rw [htn, h250]
      simp

/-- C5 witness: the concrete instance of the claim — a 300-character test
    name with worker tag `"gw3"` yields a filename of length exactly 255
    (hence at most 255) that starts with `"gw3_"`. -/
theorem c5_witness :
    (("gw3".toList).length ≤ 250 ∧
      (build_log_filename (List.replicate 300 'x') ("gw3".toList)).length ≤ 255) ∧
    (build_log_filename (List.replicate 300 'x') ("gw3".toList)).take 4 = ("gw3_".toList) ∧
    (build_log_filename (List.replicate 300 'x') ("gw3".toList)).length = 255 :=
  ⟨⟨by decide, (c5_amended (List.replicate 300 'x') ("gw3".toList) (by decide)).1⟩,
   by decide, by decide⟩

/-- C6: the failure relocator acts only on a failed call-phase report.
    In that case, when the primary log file exists it is moved to the
    failed-tests directory under the unchanged filename — the destination
    is present afterwards, nothing is left at the original path, and the
    directory set is untouched; when the primary file does not exist the
    hook is a silent no-op.  On any non-call-phase or non-failed report
    the filesystem is left completely untouched. -/
theorem c6_relocation (fs : FS) (r : Report) :
    (r.whenPhase = callPhase → r.failed = true →
      ((report_src r ∈ fs.files →
          (pytest_runtest_logreport fs r).files
            = insert (report_dst r) (fs.files.erase (report_src r)) ∧
          report_dst r ∈ (pytest_runtest_logreport fs r).files ∧
          report_src r ∉ (pytest_runtest_logreport fs r).files ∧
          (pytest_runtest_logreport fs r).dirs = fs.dirs) ∧
        (report_src r ∉ fs.files → pytest_runtest_logreport fs r = fs))) ∧
    (¬ (r.whenPhase = callPhase ∧ r.failed = true) →
      pytest_runtest_logreport fs r = fs) := by
  constructor
  · intro hw hf
    constructor
    · intro hs
      have hrw : pytest_runtest_logreport fs r
          = { fs with files := insert (report_dst r) (fs.files.erase (report_src r)) } := by
        simp [pytest_runtest_logreport, hw, hf, hs]
      refine ⟨by rw [hrw], ?_, ?_, by rw [hrw]⟩
      · rw [hrw]
        exact Finset.mem_insert_self _ _
      · rw [hrw]
        simp only [Finset.mem_insert]
        rintro (heq | hmem)
        · have hlen := congrArg List.length heq
          simp [report_src, report_dst] at hlen
        · exact absurd hmem (Finset.not_mem_erase _ _)
    · intro hs
      simp [pytest_runtest_logreport, hw, hf, hs]
  · intro hnot
    simp only [pytest_runtest_logreport, if_neg hnot]

/-- C6 witness: a concrete failed call-phase report for nodeid `"t"`,
    with exactly the primary log file on disk — after the hook the file
    sits at the failed-tests path and is gone from the primary path. -/
theorem c6_witness :
    (pytest_runtest_logreport ⟨∅, {report_src ⟨("t".toList), callPhase, true⟩}⟩
        ⟨("t".toList), callPhase, true⟩).files
      = insert (report_dst ⟨("t".toList), callPhase, true⟩)
          ((({report_src ⟨("t".toList), callPhase, true⟩} : Finset DirPath)).erase
            (report_src ⟨("t".toList), callPhase, true⟩)) ∧
    report_src ⟨("t".toList), callPhase, true⟩
      ∉ (pytest_runtest_logreport ⟨∅, {report_src ⟨("t".toList), callPhase, true⟩}⟩
          ⟨("t".toList), callPhase, true⟩).files :=
  ⟨(((c6_relocation _ _).1 rfl rfl).1 (Finset.mem_singleton_self _)).1,
   (((c6_relocation _ _).1 rfl rfl).1 (Finset.mem_singleton_self _)).2.2.1⟩

/-- Helper: the teardown loop aborts with an error exactly when some file
    sink in the iterated list has a raising `close()`. -/
theorem closeLoop_error_iff (cr : Sink → Bool) (rest : List Sink) :
    ∀ acc, closeLoop cr rest acc = .error ()
      ↔ ∃ h ∈ rest, h.isFile = true ∧ cr h = true := by
  induction rest with
  | nil => intro acc; simp [closeLoop]
  | cons h t ih =>
    intro acc
    by_cases hf : h.isFile = true
    · by_cases hc : cr h = true
      · simp [closeLoop, hf, hc]
      · have hc' : cr h = false := by simpa using hc
        simp [closeLoop, hf, hc', ih]
    · have hf' : h.isFile = false := by simpa using hf
      simp [closeLoop, hf', ih]

/-- Helper: erasing only file sinks never disturbs a non-file head of the
    accumulator. -/
theorem foldl_erase_cons (t : List Sink) :
    ∀ (acc : List Sink) (h0 : Sink), h0.isFile = false →
      t.foldl (fun a x => if x.isFile then a.erase x else a) (h0 :: acc)
        = h0 :: t.foldl (fun a x => if x.isFile then a.erase x else a) acc := by
  induction t with
  | nil => intro acc h0 _; rfl
  | cons x t ih =>
    intro acc h0 h0f
    by_cases hx : x.isFile = true
    · have hne : ¬ (h0 == x) := by
        simp only [beq_iff_eq]
        intro he
        rw [he, hx] at h0f
        cases h0f
      simp only [List.foldl_cons, if_pos hx, List.erase_cons_tail hne]
      exact ih _ _ h0f
    · have hx' : x.isFile = false := by simpa using hx
      simp only [List.foldl_cons, hx', if_neg, Bool.false_eq_true, not_false_iff]
      exact ih _ _ h0f

/-- Helper: iterating over a copy of the handler list and erasing each
    file sink from the live list removes exactly the file sinks. -/
theorem foldl_erase_self (l : List Sink) :
    l.foldl (fun a x => if x.isFile then a.erase x else a) l
      = l.filter (fun x => !x.isFile) := by
  induction l with
  | nil => rfl
  | cons h0 t ih =>
    by_cases hf : h0.isFile = true
    · simp only [List.foldl_cons, if_pos hf, if_true, List.erase_cons_head]
      rw [ih]
      simp [List.filter_cons, hf]
    · have hf' : h0.isFile = false := by simpa using hf
      simp only [List.foldl_cons, hf', Bool.false_eq_true, if_neg, not_false_iff]
      rw [foldl_erase_cons t t h0 hf', ih]
      simp [List.filter_cons, hf']

/-- Helper: when no file sink's `close()` raises, the teardown loop
    completes and its effect on the live list is the fold that erases
    each file sink of the iterated copy. -/
theorem closeLoop_ok (cr : Sink → Bool) (rest : List Sink)
    (hall : ∀ h ∈ rest, h.isFile = true → cr h = false) :
    ∀ acc, closeLoop cr rest acc
      = .ok (rest.foldl (fun a x => if x.isFile then a.erase x else a) acc) := by
  induction rest with
  | nil => intro acc; rfl
  | cons h t ih =>
    intro acc
    by_cases hf : h.isFile = true
    · have hc : cr h = false := hall h (by simp) hf
      simp only [closeLoop, hf, if_pos, hc, Bool.false_eq_true, if_neg, not_false_iff,
        List.foldl_cons]
      exact ih (fun x hx hxf => hall x (by simp [hx]) hxf) _
    · have hf' : h.isFile = false := by simpa using hf
      simp only [closeLoop, hf', Bool.false_eq_true, if_neg, not_false_iff, List.foldl_cons]
      exact ih (fun x hx hxf => hall x (by simp [hx]) hxf) _

/-- C1 amended: attach is not additive and detach is not minimal.
    `pytest_runtest_setup` replaces the root logging target's entire sink
    list with exactly its own fresh file sink, discarding every
    previously registered sink; `pytest_runtest_teardown` (when no close
    raises) removes every file-backed sink from the target, leaving
    exactly the non-file sinks registered. -/
theorem c1_amended (closeRaises : Sink → Bool) (handlers : List Sink) (nodeid : List Char) :
    pytest_runtest_setup handlers nodeid = [newFileSink nodeid] ∧
    ((∀ h ∈ handlers, h.isFile = true → closeRaises h = false) →
      pytest_runtest_teardown closeRaises handlers
        = .ok (handlers.filter (fun h => !h.isFile))) := by
  refine ⟨rfl, fun hall => ?_⟩
  show closeLoop closeRaises handlers handlers = _
  rw [closeLoop_ok closeRaises handlers hall handlers, foldl_erase_self]

/-- C1 witness: with one non-file sink and one file sink registered and
    no close error, setup replaces everything by its own sink and
    teardown keeps exactly the non-file sink. -/
theorem c1_witness :
    pytest_runtest_setup [⟨false, []⟩, ⟨true, []⟩] ("t".toList) = [newFileSink ("t".toList)] ∧
    pytest_runtest_teardown (fun _ => false) [⟨false, []⟩, ⟨true, []⟩]
      = .ok (([⟨false, []⟩, ⟨true, []⟩] : List Sink).filter (fun h => !h.isFile)) :=
  ⟨(c1_amended (fun _ => false) [⟨false, []⟩, ⟨true, []⟩] ("t".toList)).1,
   (c1_amended (fun _ => false) [⟨false, []⟩, ⟨true, []⟩] ("t".toList)).2 (by decide)⟩

/-- C7 amended: teardown performs no internal error handling at all —
    it raises to its caller exactly when the `close()` of some registered
    file sink raises; nothing is caught or logged at warning level. -/
theorem c7_amended (closeRaises : Sink → Bool) (handlers : List Sink) :
    pytest_runtest_teardown closeRaises handlers = .error ()
      ↔ ∃ h ∈ handlers, h.isFile = true ∧ closeRaises h = true :=
  closeLoop_error_iff closeRaises handlers handlers

/-- C10 amended: the derived log-file base name never contains a `/`
    character (it is the suffix after the last `/`), so it is a single
    path component; it may however contain the substring `"::"` — see the
    counterexample — so the original claim's `"::"`-freeness fails. -/
theorem c10_amended (x : List Char) :
    '/' ∉ get_last_element (sanitize_nodeid x) := by
  intro hmem
  have h1 : '/' ∈ (sanitize_nodeid x).reverse.takeWhile (fun c => c != '/') := by
    simpa [get_last_element, List.mem_reverse] using hmem
  have h2 := List.mem_takeWhile_imp h1
  simp at h2

/-- Helper: a successful `mkdir` never touches the file set. -/
theorem mkdirA_files (p : Bool) (d : DirPath) (fs : FS) :
    (mkdirA p d fs).files = fs.files := by
  unfold mkdirA
  split <;> rfl

/-- Helper: after `mkdir`, the requested directory exists. -/
theorem mkdirA_mem_self (p : Bool) (d : DirPath) (fs : FS) :
    d ∈ (mkdirA p d fs).dirs := by
  unfold mkdirA
  split
  · assumption
  · split <;> exact Finset.mem_insert_self _ _

/-- Helper: `mkdir` never removes a directory. -/
theorem mkdirA_mono (p : Bool) (d : DirPath) (fs : FS) {e : DirPath}
    (he : e ∈ fs.dirs) : e ∈ (mkdirA p d fs).dirs := by
  unfold mkdirA
  split
  · exact he
  · split
    · exact Finset.mem_insert_of_mem (Finset.mem_insert_of_mem he)
    · exact Finset.mem_insert_of_mem he

/-- Helper: the only directories `mkdir` can add are the requested one
    and its parent. -/
theorem mkdirA_mem_dest (p : Bool) (d : DirPath) (fs : FS) {e : DirPath}
    (he : e ∈ (mkdirA p d fs).dirs) :
    e ∈ fs.dirs ∨ e = d ∨ e = d.dropLast := by
  revert he
  unfold mkdirA
  split
  · exact fun he => Or.inl he
  · split
    · intro he
      rcases Finset.mem_insert.mp he with h | h
      · exact Or.inr (Or.inl h)
      · rcases Finset.mem_insert.mp h with h | h
        · exact Or.inr (Or.inr h)
        · exact Or.inl h
    · intro he
      rcases Finset.mem_insert.mp he with h | h
      · exact Or.inr (Or.inl h)
      · exact Or.inl h

/-- Helper: `mkdir` with `exist_ok=True` never raises. -/
theorem mkdir_true (p : Bool) (d : DirPath) (fs : FS) :
    mkdir p true d fs = .ok (mkdirA p d fs) := by
  simp [mkdir]

/-- Helper: `ensure_log_dirs_exist` always succeeds, with the effect of
    its four `mkdir` calls in order. -/
theorem ensure_ok (fs : FS) :
    ensure_log_dirs_exist fs
      = .ok (mkdirA true TRACES_DIR (mkdirA true SCREENSHOTS_DIR
          (mkdirA true FAILED_LOG_DIR (mkdirA false LOG_DIR fs)))) := by
  simp [ensure_log_dirs_exist, mkdir_true, Bind.bind, Except.bind]

/-- Helper: `clean_and_create_log_dirs` always succeeds: the conditional
    `rmtree`, then the four `mkdir` calls in order. -/
theorem clean_ok (fs : FS) :
    clean_and_create_log_dirs fs
      = .ok (mkdirA true TRACES_DIR (mkdirA true SCREENSHOTS_DIR
          (mkdirA true FAILED_LOG_DIR (mkdirA false LOG_DIR
            (if LOG_DIR ∈ fs.dirs then rmtree LOG_DIR fs else fs))))) := by
  simp [clean_and_create_log_dirs, mkdir_true, Bind.bind, Except.bind]

/-- Helper: a path whose first segment is `"test-logs"` lies under the
    artifact root. -/
theorem prefix_of_head (d : DirPath) (h : d.head? = some LOG_DIR_NAME) :
    LOG_DIR.isPrefixOf d = true := by
  cases d with
  | nil => simp at h
  | cons a t =>
    simp only [List.head?_cons, Option.some.injEq] at h
    subst h
    simp [LOG_DIR, List.isPrefixOf]

/-- Helper: combined effect of the four `mkdir` calls shared by
    `clean_and_create_log_dirs` and `ensure_log_dirs_exist`: files are
    untouched, existing directories survive, the four artifact
    directories exist afterwards, and no other directory appears. -/
theorem after4 (fsb : FS) :
    ∃ fsa, mkdirA true TRACES_DIR (mkdirA true SCREENSHOTS_DIR (mkdirA true FAILED_LOG_DIR
        (mkdirA false LOG_DIR fsb))) = fsa ∧
      fsa.files = fsb.files ∧ (∀ e ∈ fsb.dirs, e ∈ fsa.dirs) ∧
      LOG_DIR ∈ fsa.dirs ∧ FAILED_LOG_DIR ∈ fsa.dirs ∧ SCREENSHOTS_DIR ∈ fsa.dirs ∧
      TRACES_DIR ∈ fsa.dirs ∧
      (∀ e ∈ fsa.dirs, e ∈ fsb.dirs ∨ e = LOG_DIR ∨ e = FAILED_LOG_DIR ∨
        e = SCREENSHOTS_DIR ∨ e = TRACES_DIR ∨ e = LOG_DIR.dropLast) := by
  obtain ⟨b1, hb1⟩ : ∃ b1, mkdirA false LOG_DIR fsb = b1 := ⟨_, rfl⟩
  obtain ⟨b2, hb2⟩ : ∃ b2, mkdirA true FAILED_LOG_DIR b1 = b2 := ⟨_, rfl⟩
  obtain ⟨b3, hb3⟩ : ∃ b3, mkdirA true SCREENSHOTS_DIR b2 = b3 := ⟨_, rfl⟩
  obtain ⟨b4, hb4⟩ : ∃ b4, mkdirA true TRACES_DIR b3 = b4 := ⟨_, rfl⟩
  have hdl2 : FAILED_LOG_DIR.dropLast = LOG_DIR := rfl
  have hdl3 : SCREENSHOTS_DIR.dropLast = LOG_DIR := rfl
  have hdl4 : TRACES_DIR.dropLast = LOG_DIR := rfl
  refine ⟨b4, by rw [hb1, hb2, hb3, hb4], ?_, ?_, ?_, ?_, ?_, ?_, ?_⟩
  · rw [← hb4, mkdirA_files, ← hb3, mkdirA_files, ← hb2, mkdirA_files, ← hb1, mkdirA_files]
  · intro e he
    have e1 : e ∈ b1.dirs := hb1 ▸ mkdirA_mono false LOG_DIR fsb he
    have e2 : e ∈ b2.dirs := hb2 ▸ mkdirA_mono true FAILED_LOG_DIR b1 e1
    have e3 : e ∈ b3.dirs := hb3 ▸ mkdirA_mono true SCREENSHOTS_DIR b2 e2
    exact hb4 ▸ mkdirA_mono true TRACES_DIR b3 e3
  · have e1 : LOG_DIR ∈ b1.dirs := hb1 ▸ mkdirA_mem_self false LOG_DIR fsb
    have e2 : LOG_DIR ∈ b2.dirs := hb2 ▸ mkdirA_mono true FAILED_LOG_DIR b1 e1
    have e3 : LOG_DIR ∈ b3.dirs := hb3 ▸ mkdirA_mono true SCREENSHOTS_DIR b2 e2
    exact hb4 ▸ mkdirA_mono true TRACES_DIR b3 e3
  · have e2 : FAILED_LOG_DIR ∈ b2.dirs := hb2 ▸ mkdirA_mem_self true FAILED_LOG_DIR b1
    have e3 : FAILED_LOG_DIR ∈ b3.dirs := hb3 ▸ mkdirA_mono true SCREENSHOTS_DIR b2 e2
    exact hb4 ▸ mkdirA_mono true TRACES_DIR b3 e3
  · have e3 : SCREENSHOTS_DIR ∈ b3.dirs := hb3 ▸ mkdirA_mem_self true SCREENSHOTS_DIR b2
    exact hb4 ▸ mkdirA_mono true TRACES_DIR b3 e3
  · exact hb4 ▸ mkdirA_mem_self true TRACES_DIR b3
  · intro e he
    rcases mkdirA_mem_dest true TRACES_DIR b3 (hb4 ▸ he) with h3 | h | h
    · rcases mkdirA_mem_dest true SCREENSHOTS_DIR b2 (hb3 ▸ h3) with h2 | h | h
      · rcases mkdirA_mem_dest true FAILED_LOG_DIR b1 (hb2 ▸ h2) with h1 | h | h
        · rcases mkdirA_mem_dest false LOG_DIR fsb (hb1 ▸ h1) with h0 | h | h
          · exact Or.inl h0
          · exact Or.inr (Or.inl h)
          · exact Or.inr (Or.inr (Or.inr (Or.inr (Or.inr h))))
        · exact Or.inr (Or.inr (Or.inl h))
        · exact Or.inr (Or.inl (hdl2 ▸ h))
      · exact Or.inr (Or.inr (Or.inr (Or.inl h)))
      · exact Or.inr (Or.inl (hdl3 ▸ h))
    · exact Or.inr (Or.inr (Or.inr (Or.inr (Or.inl h))))
    · exact Or.inr (Or.inl (hdl4 ▸ h))

/-- C8: on a well-formed filesystem, `clean_and_create_log_dirs` (the
    spec's `reset_all`) succeeds, leaves all four artifact directories
    existing, no file under the artifact tree, and no directory under the
    tree other than the four; and `ensure_log_dirs_exist` (the spec's
    `ensure_all`) succeeds on any state, deletes nothing — its file set is
    unchanged and every existing directory survives — while (re)creating
    all four directories.  In particular a file created after the reset
    still exists after a subsequent ensure. -/
theorem c8_reset_ensure (fs : FS) (hwf : wfFS fs) :
    (∃ fs1, clean_and_create_log_dirs fs = .ok fs1 ∧
       LOG_DIR ∈ fs1.dirs ∧ FAILED_LOG_DIR ∈ fs1.dirs ∧
       SCREENSHOTS_DIR ∈ fs1.dirs ∧ TRACES_DIR ∈ fs1.dirs ∧
       (∀ f ∈ fs1.files, f.head? ≠ some LOG_DIR_NAME) ∧
       (∀ d ∈ fs1.dirs, d.head? = some LOG_DIR_NAME →
          d = LOG_DIR ∨ d = FAILED_LOG_DIR ∨ d = SCREENSHOTS_DIR ∨ d = TRACES_DIR)) ∧
    (∀ fs2 : FS, ∃ fs3, ensure_log_dirs_exist fs2 = .ok fs3 ∧
       fs3.files = fs2.files ∧ fs2.dirs ⊆ fs3.dirs ∧
       LOG_DIR ∈ fs3.dirs ∧ FAILED_LOG_DIR ∈ fs3.dirs ∧
       SCREENSHOTS_DIR ∈ fs3.dirs ∧ TRACES_DIR ∈ fs3.dirs) := by
  constructor
  · have hfiles0 : ∀ f ∈ (if LOG_DIR ∈ fs.dirs then rmtree LOG_DIR fs else fs).files,
        f.head? ≠ some LOG_DIR_NAME := by
      intro f hf hhead
      by_cases hin : LOG_DIR ∈ fs.dirs
      · rw [if_pos hin] at hf
        have := (Finset.mem_filter.mp hf).2
        rw [prefix_of_head f hhead] at this
        cases this
      · rw [if_neg hin] at hf
        exact hin (hwf.1 f hf hhead)
    have hdirs0 : ∀ d ∈ (if LOG_DIR ∈ fs.dirs then rmtree LOG_DIR fs else fs).dirs,
        d.head? ≠ some LOG_DIR_NAME := by
      intro d hd hhead
      by_cases hin : LOG_DIR ∈ fs.dirs
      · rw [if_pos hin] at hd
        have := (Finset.mem_filter.mp hd).2
        rw [prefix_of_head d hhead] at this
        cases this
      · rw [if_neg hin] at hd
        exact hin (hwf.2 d hd hhead)
    obtain ⟨fsa, heq, hfi, _, h1, h2, h3, h4, hdest⟩ :=
      after4 (if LOG_DIR ∈ fs.dirs then rmtree LOG_DIR fs else fs)
    refine ⟨fsa, by rw [clean_ok fs, heq], h1, h2, h3, h4, ?_, ?_⟩
    · intro f hf
      rw [hfi] at hf
      exact hfiles0 f hf
    · intro d hd hhead
      rcases hdest d hd with h | h | h | h | h | h
      · exact absurd hhead (hdirs0 d h)
      · exact Or.inl h
      · exact Or.inr (Or.inl h)
      · exact Or.inr (Or.inr (Or.inl h))
      · exact Or.inr (Or.inr (Or.inr h))
      · have hnil : LOG_DIR.dropLast = ([] : DirPath) := rfl
        rw [h, hnil] at hhead
        simp at hhead
  · intro fs2
    obtain ⟨fsa, heq, hfi, hmono, h1, h2, h3, h4, _⟩ := after4 fs2
    exact ⟨fsa, by rw [ensure_ok fs2, heq], hfi, fun e he => hmono e he, h1, h2, h3, h4⟩

/-- C8 witness: the empty filesystem is well-formed, and the reset/ensure
    properties hold there. -/
theorem c8_witness :
    wfFS emptyFS ∧
    ((∃ fs1, clean_and_create_log_dirs emptyFS = .ok fs1 ∧
       LOG_DIR ∈ fs1.dirs ∧ FAILED_LOG_DIR ∈ fs1.dirs ∧
       SCREENSHOTS_DIR ∈ fs1.dirs ∧ TRACES_DIR ∈ fs1.dirs ∧
       (∀ f ∈ fs1.files, f.head? ≠ some LOG_DIR_NAME) ∧
       (∀ d ∈ fs1.dirs, d.head? = some LOG_DIR_NAME →
          d = LOG_DIR ∨ d = FAILED_LOG_DIR ∨ d = SCREENSHOTS_DIR ∨ d = TRACES_DIR)) ∧
    (∀ fs2 : FS, ∃ fs3, ensure_log_dirs_exist fs2 = .ok fs3 ∧
       fs3.files = fs2.files ∧ fs2.dirs ⊆ fs3.dirs ∧
       LOG_DIR ∈ fs3.dirs ∧ FAILED_LOG_DIR ∈ fs3.dirs ∧
       SCREENSHOTS_DIR ∈ fs3.dirs ∧ TRACES_DIR ∈ fs3.dirs)) :=
  ⟨⟨fun f hf => absurd hf (Finset.not_mem_empty f),
    fun d hd => absurd hd (Finset.not_mem_empty d)⟩,
   c8_reset_ensure emptyFS
    ⟨fun f hf => absurd hf (Finset.not_mem_empty f),
     fun d hd => absurd hd (Finset.not_mem_empty d)⟩⟩

/-- Helper: every step of `ensureSteps` passes `exist_ok=True`. -/
theorem step_exist_ok (s : Step) (hs : s ∈ ensureSteps) : s.2.1 = true := by
  simp only [ensureSteps, List.mem_cons, List.not_mem_nil, or_false] at hs
  rcases hs with rfl | rfl | rfl | rfl <;> rfl

/-- Helper: a sequence of `exist_ok=True` mkdir steps never raises,
    never removes a directory, and never touches files. -/
theorem runSteps_ok (seq : List Step) :
    ∀ fs : FS, (∀ s ∈ seq, s.2.1 = true) →
      ∃ fs1, runSteps seq fs = .ok fs1 ∧ (∀ e ∈ fs.dirs, e ∈ fs1.dirs) ∧
        fs1.files = fs.files := by
  induction seq with
  | nil => exact fun fs _ => ⟨fs, rfl, fun e he => he, rfl⟩
  | cons s rest ih =>
    intro fs hall
    have hek : s.2.1 = true := hall s (by simp)
    obtain ⟨fs1, h1, h2, h3⟩ :=
      ih (mkdirA s.1 s.2.2 fs) (fun t ht => hall t (by simp [ht]))
    refine ⟨fs1, ?_, ?_, ?_⟩
    · show (match mkdir s.1 s.2.1 s.2.2 fs with
        | .ok fs1 => runSteps rest fs1
        | .error e => .error e) = .ok fs1
      rw [hek, mkdir_true s.1 s.2.2 fs]
      exact h1
    · exact fun e he => h2 e (mkdirA_mono s.1 s.2.2 fs he)
    · rw [h3, mkdirA_files]

/-- Helper: after a successful run of `exist_ok=True` mkdir steps, the
    directory of every step in the sequence exists. -/
theorem runSteps_mem (seq : List Step) :
    ∀ (fs fs1 : FS), runSteps seq fs = .ok fs1 →
      (∀ s ∈ seq, s.2.1 = true) → ∀ s ∈ seq, s.2.2 ∈ fs1.dirs := by
  induction seq with
  | nil => intro fs fs1 _ _ s hs; simp at hs
  | cons s rest ih =>
    intro fs fs1 hrun hall t ht
    have hek : s.2.1 = true := hall s (by simp)
    have hrun' : runSteps rest (mkdirA s.1 s.2.2 fs) = .ok fs1 := by
      have : runSteps (s :: rest) fs = (match mkdir s.1 s.2.1 s.2.2 fs with
        | .ok fsn => runSteps rest fsn
        | .error e => .error e) := rfl
      rw [this, hek, mkdir_true s.1 s.2.2 fs] at hrun
      exact hrun
    rcases List.mem_cons.mp ht with rfl | htr
    · obtain ⟨fs2, h1, h2, _⟩ :=
        runSteps_ok rest (mkdirA t.1 t.2.2 fs) (fun u hu => hall u (by simp [hu]))
      rw [h1] at hrun'
      have hfs : fs2 = fs1 := by
        injection hrun'
      exact hfs ▸ h2 t.2.2 (mkdirA_mem_self t.1 t.2.2 fs)
    · exact ih (mkdirA s.1 s.2.2 fs) fs1 hrun' (fun u hu => hall u (by simp [hu])) t htr

/-- Helper: a single `ensure_log_dirs_exist()` call is exactly the run of
    its four steps, so any interleaving model covers the real function. -/
theorem ensure_eq_runSteps (fs : FS) :
    ensure_log_dirs_exist fs = runSteps ensureSteps fs := by
  rw [ensure_ok fs]
  simp only [ensureSteps, runSteps, mkdir_true]

/-- C9: concurrent `ensure_log_dirs_exist` calls are safe.  Any schedule
    whose steps are drawn from the four ensure steps (in particular any
    interleaving of several workers' step sequences, which preserves each
    worker's order and hence membership both ways) never raises — every
    step passes `exist_ok=True`, so creation cannot fail on an existing
    directory — and leaves all four artifact directories present with the
    files untouched. -/
theorem c9_concurrent_ensure (seq : List Step) (fs : FS)
    (hfrom : ∀ s ∈ seq, s ∈ ensureSteps) (hall4 : ∀ s ∈ ensureSteps, s ∈ seq) :
    ∃ fs1, runSteps seq fs = .ok fs1 ∧ fs1.files = fs.files ∧
      LOG_DIR ∈ fs1.dirs ∧ FAILED_LOG_DIR ∈ fs1.dirs ∧
      SCREENSHOTS_DIR ∈ fs1.dirs ∧ TRACES_DIR ∈ fs1.dirs := by
  have hek : ∀ s ∈ seq, s.2.1 = true := fun s hs => step_exist_ok s (hfrom s hs)
  obtain ⟨fs1, h1, _, h3⟩ := runSteps_ok seq fs hek
  have hmem := runSteps_mem seq fs fs1 h1 hek
  refine ⟨fs1, h1, h3, ?_, ?_, ?_, ?_⟩
  · exact hmem (false, true, LOG_DIR) (hall4 (false, true, LOG_DIR) (by simp [ensureSteps]))
  · exact hmem (true, true, FAILED_LOG_DIR)
      (hall4 (true, true, FAILED_LOG_DIR) (by simp [ensureSteps]))
  · exact hmem (true, true, SCREENSHOTS_DIR)
      (hall4 (true, true, SCREENSHOTS_DIR) (by simp [ensureSteps]))
  · exact hmem (true, true, TRACES_DIR) (hall4 (true, true, TRACES_DIR) (by simp [ensureSteps]))

/-- C9 witness: a concrete interleaving of two workers' ensure calls on
    the empty filesystem succeeds and creates all four directories. -/
theorem c9_witness :
    (∀ s ∈ twoWorkerSchedule, s ∈ ensureSteps) ∧
    (∃ fs1, runSteps twoWorkerSchedule emptyFS = .ok fs1 ∧ fs1.files = emptyFS.files ∧
      LOG_DIR ∈ fs1.dirs ∧ FAILED_LOG_DIR ∈ fs1.dirs ∧
      SCREENSHOTS_DIR ∈ fs1.dirs ∧ TRACES_DIR ∈ fs1.dirs) :=
  ⟨by decide, c9_concurrent_ensure twoWorkerSchedule emptyFS (by decide) (by decide)⟩

/-- Helper: splitting a one-character string yields that string. -/
theorem splitOnSep_single (c : Char) : splitOnSep [c] = [[c]] := by
  conv_lhs => rw [splitOnSep.eq_def]
  split <;> simp_all [show splitOnSep ([] : List Char) = [[]] from rfl]

/-- Helper: a string containing no colon at all contains no `"::"`
    delimiter, so the split returns it whole. -/
theorem splitOnSep_no_colon : ∀ (x : List Char), ':' ∉ x → splitOnSep x = [x]
  | [], _ => rfl
  | [c], _ => splitOnSep_single c
  | c :: d :: rest, h => by
    have hc : c ≠ ':' := fun hcc => h (by rw [hcc]; exact List.mem_cons_self _ _)
    have hr : ':' ∉ d :: rest := fun hm => h (List.mem_cons_of_mem c hm)
    have ih := splitOnSep_no_colon (d :: rest) hr
    conv_lhs => rw [splitOnSep.eq_def]
    simp [hc]
    rw [ih]

/-- Helper: hyphen-collapsing preserves the first character. -/
theorem collapse_head : ∀ (c : Char) (r : List Char),
    (collapseHyphens (c :: r)).head? = some c := by
  intro c r
  induction r generalizing c with
  | nil => rfl
  | cons d rest ih =>
    show (if c = '-' ∧ d = '-' then collapseHyphens (d :: rest)
          else c :: collapseHyphens (d :: rest)).head? = some c
    by_cases h : c = '-' ∧ d = '-'
    · rw [if_pos h, ih d, h.1, h.2]
    · rw [if_neg h]
      rfl

/-- Helper: hyphen-collapsing introduces no new characters. -/
theorem mem_of_mem_collapse : ∀ (l : List Char) (c : Char), c ∈ collapseHyphens l → c ∈ l := by
  intro l
  induction l with
  | nil => intro c h; exact absurd h (List.not_mem_nil c)
  | cons a t ih =>
    intro c h
    cases t with
    | nil =>
      rw [show collapseHyphens [a] = [a] from rfl] at h
      exact h
    | cons d rest =>
      by_cases had : a = '-' ∧ d = '-'
      · rw [show collapseHyphens (a :: d :: rest) = collapseHyphens (d :: rest)
            from if_pos had] at h
        exact List.mem_cons_of_mem a (ih c h)
      · rw [show collapseHyphens (a :: d :: rest) = a :: collapseHyphens (d :: rest)
            from if_neg had] at h
        rcases List.mem_cons.mp h with rfl | h2
        · exact List.mem_cons_self _ _
        · exact List.mem_cons_of_mem a (ih c h2)

/-- Helper: the output of hyphen-collapsing has no adjacent hyphens. -/
theorem collapse_noAdj : ∀ (l : List Char), noAdjHyphens (collapseHyphens l) = true := by
  intro l
  induction l with
  | nil => rfl
  | cons a t ih =>
    cases t with
    | nil => rfl
    | cons d rest =>
      by_cases had : a = '-' ∧ d = '-'
      · rw [show collapseHyphens (a :: d :: rest) = collapseHyphens (d :: rest)
            from if_pos had]
        exact ih
      · rw [show collapseHyphens (a :: d :: rest) = a :: collapseHyphens (d :: rest)
            from if_neg had]
        have hz := collapse_head d rest
        cases hcz : collapseHyphens (d :: rest) with
        | nil => rfl
        | cons z0 zs =>
          rw [hcz] at hz
          simp only [List.head?_cons, Option.some.injEq] at hz
          subst hz
          rw [hcz] at ih
          show (!(a == '-' && z0 == '-') && noAdjHyphens (z0 :: zs)) = true
          rw [ih]
          simp only [Bool.and_true, Bool.not_eq_true']
          rw [Bool.and_eq_false_iff]
          simp only [beq_eq_false_iff_ne, ne_eq]
          by_cases ha : a = '-'
          · exact Or.inr (fun hd => had ⟨ha, hd⟩)
          · exact Or.inl ha

/-- Helper: hyphen-collapsing fixes any string without adjacent hyphens. -/
theorem collapse_of_noAdj : ∀ (l : List Char), noAdjHyphens l = true → collapseHyphens l = l := by
  intro l
  induction l with
  | nil => intro _; rfl
  | cons a t ih =>
    intro h
    cases t with
    | nil => rfl
    | cons d rest =>
      have hsplit : (!(a == '-' && d == '-') && noAdjHyphens (d :: rest)) = true := h
      rw [Bool.and_eq_true] at hsplit
      have h2 := hsplit.2
      have h1 := hsplit.1
      have hna : ¬ (a = '-' ∧ d = '-') := by
        simp only [Bool.not_eq_true', Bool.and_eq_false_iff, beq_eq_false_iff_ne, ne_eq] at h1
        rcases h1 with h1 | h1
        · exact fun hc => h1 hc.1
        · exact fun hc => h1 hc.2
      rw [show collapseHyphens (a :: d :: rest) = a :: collapseHyphens (d :: rest)
          from if_neg hna, ih h2]

/-- Helper: a hyphen-free string has no adjacent hyphens. -/
theorem noAdj_of_no_hyphen : ∀ (l : List Char), '-' ∉ l → noAdjHyphens l = true := by
  intro l
  induction l with
  | nil => intro _; rfl
  | cons a t ih =>
    intro h
    cases t with
    | nil => rfl
    | cons d rest =>
      have ha : a ≠ '-' := fun hc => h (hc ▸ List.mem_cons_self a _)
      have ht : '-' ∉ d :: rest := fun hm => h (List.mem_cons_of_mem a hm)
      show (!(a == '-' && d == '-') && noAdjHyphens (d :: rest)) = true
      rw [ih ht]
      simp [ha]

/-- Helper: a hyphen-free collapse output comes from a hyphen-free input. -/
theorem no_hyphen_of_collapse : ∀ (l : List Char), '-' ∉ collapseHyphens l → '-' ∉ l := by
  intro l
  induction l with
  | nil => intro _ hm; exact absurd hm (List.not_mem_nil _)
  | cons a t ih =>
    intro h hm
    cases t with
    | nil =>
      rw [show collapseHyphens [a] = [a] from rfl] at h
      exact h hm
    | cons d rest =>
      by_cases had : a = '-' ∧ d = '-'
      · apply h
        rw [show collapseHyphens (a :: d :: rest) = collapseHyphens (d :: rest) from if_pos had]
        have hh := collapse_head d rest
        cases hcz : collapseHyphens (d :: rest) with
        | nil => rw [hcz] at hh; cases hh
        | cons z0 zs =>
          rw [hcz] at hh
          simp only [List.head?_cons, Option.some.injEq] at hh
          rw [hh, had.2]
          exact List.mem_cons_self _ _
      · rw [show collapseHyphens (a :: d :: rest) = a :: collapseHyphens (d :: rest)
            from if_neg had] at h
        rcases List.mem_cons.mp hm with he | hm2
        · exact h (he ▸ List.mem_cons_self a _)
        · exact ih (fun hc => h (List.mem_cons_of_mem a hc)) hm2

/-- Helper: only `"()"` itself collapses to `"()"`. -/
theorem collapse_eq_paren (l : List Char) (hl : collapseHyphens l = emptyParen) :
    l = emptyParen := by
  have hnc : '-' ∉ collapseHyphens l := by
    rw [hl]
    decide
  have hn : '-' ∉ l := no_hyphen_of_collapse l hnc
  have hid : collapseHyphens l = l := collapse_of_noAdj l (noAdj_of_no_hyphen l hn)
  rw [← hid, hl]

/-- Helper: the bracket rewrite fixes any string with no `[`. -/
theorem bracketSubAux_no_open : ∀ (fuel : Nat) (l : List Char), '[' ∉ l →
    bracketSubAux fuel l = l := by
  intro fuel
  induction fuel with
  | zero => intro l _; cases l <;> rfl
  | succ n ih =>
    intro l h
    cases l with
    | nil => rfl
    | cons c rest =>
      have hc : c ≠ '[' := fun hcc => h (hcc ▸ List.mem_cons_self c rest)
      have hr : '[' ∉ rest := fun hm => h (List.mem_cons_of_mem c hm)
      conv_lhs => rw [bracketSubAux.eq_def]
      simp [hc, ih rest hr]

/-- Helper: the bracket rewrite fixes any string with no `[`. -/
theorem bracketSub_no_open (l : List Char) (h : '[' ∉ l) : bracketSub l = l :=
  bracketSubAux_no_open l.length l h

/-- Helper: slash replacement fixes slash-free strings. -/
theorem map_slash_id : ∀ (l : List Char), '/' ∉ l → l.map slashToHyphen = l := by
  intro l
  induction l with
  | nil => intro _; rfl
  | cons a t ih =>
    intro h
    have ha : a ≠ '/' := fun hc => h (hc ▸ List.mem_cons_self a _)
    have ht : '/' ∉ t := fun hm => h (List.mem_cons_of_mem a hm)
    rw [List.map_cons, ih ht, show slashToHyphen a = a from if_neg ha]

/-- Helper: every character of the slash-replaced string is a hyphen or a
    character of the original. -/
theorem mem_map_slash (l : List Char) (c : Char) (h : c ∈ l.map slashToHyphen) :
    c = '-' ∨ c ∈ l := by
  rcases List.mem_map.mp h with ⟨a, ha, hfa⟩
  by_cases hsl : a = '/'
  · left
    rw [← hfa, hsl]
    rfl
  · right
    rw [← hfa, show slashToHyphen a = a from if_neg hsl]
    exact ha

/-- Helper: slash replacement leaves no slash behind. -/
theorem slash_not_mem_map (l : List Char) : '/' ∉ l.map slashToHyphen := by
  intro h
  rcases List.mem_map.mp h with ⟨a, _, hfa⟩
  by_cases hsl : a = '/'
  · rw [hsl] at hfa
    exact absurd hfa (by decide)
  · rw [show slashToHyphen a = a from if_neg hsl] at hfa
    exact hsl hfa

/-- Helper: only `"()"` maps to `"()"` under slash replacement. -/
theorem map_eq_paren : ∀ (l : List Char), l.map slashToHyphen = emptyParen → l = emptyParen := by
  intro l h
  cases l with
  | nil => simp [emptyParen] at h
  | cons a t =>
    cases t with
    | nil => simp [emptyParen] at h
    | cons b t2 =>
      cases t2 with
      | nil =>
        simp only [List.map_cons, List.map_nil, emptyParen, List.cons.injEq, and_true] at h ⊢
        obtain ⟨h1, h2⟩ := h
        constructor
        · by_cases hsl : a = '/'
          · rw [show slashToHyphen a = '-' from by rw [hsl]; rfl] at h1
            exact absurd h1 (by decide)
          · rw [show slashToHyphen a = a from if_neg hsl] at h1
            exact h1
        · by_cases hsl : b = '/'
          · rw [show slashToHyphen b = '-' from by rw [hsl]; rfl] at h2
            exact absurd h2 (by decide)
          · rw [show slashToHyphen b = b from if_neg hsl] at h2
            exact h2
      | cons e t3 => simp [emptyParen] at h

/-- Helper: rejoining a single segment adds no separator. -/
theorem intercalate_single (y : List Char) : List.intercalate ['/'] [y] = y := by
  simp [List.intercalate]

/-- Helper: on an identity with no `:` and no `[` that is not the`"()"`
    marker, the sanitizer reduces to slash replacement followed by hyphen
    collapsing. -/
theorem sanitize_eq_collapse (x : List Char) (h1 : ':' ∉ x) (h2 : '[' ∉ x)
    (hp : x ≠ emptyParen) :
    sanitize_nodeid x = collapseHyphens (x.map slashToHyphen) := by
  have hop : '[' ∉ collapseHyphens (x.map slashToHyphen) := by
    intro hm
    rcases mem_map_slash x '[' (mem_of_mem_collapse _ '[' hm) with hc | hc
    · exact absurd hc (by decide)
    · exact h2 hc
  have hyne : collapseHyphens (x.map slashToHyphen) ≠ emptyParen :=
    fun hcon => hp (map_eq_paren x (collapse_eq_paren _ hcon))
  have hfil : (collapseHyphens (x.map slashToHyphen) != emptyParen) = true := by
    simpa using hyne
  show bracketSub (List.intercalate ['/']
    ((mapLastTok (fun t => collapseHyphens (t.map slashToHyphen)) (splitOnSep x)).filter
      (fun t => t != emptyParen))) = collapseHyphens (x.map slashToHyphen)
  rw [splitOnSep_no_colon x h1]
  show bracketSub (List.intercalate ['/']
    (List.filter (fun t => t != emptyParen) [collapseHyphens (x.map slashToHyphen)]))
      = collapseHyphens (x.map slashToHyphen)
  rw [show List.filter (fun t => t != emptyParen) [collapseHyphens (x.map slashToHyphen)]
      = [collapseHyphens (x.map slashToHyphen)] from by simp [List.filter_cons, hfil]]
  rw [intercalate_single]
  exact bracketSub_no_open _ hop

/-- C3 amended: the sanitizer is idempotent on identity strings that
    contain no colon and no opening bracket (in particular on any already
    slash-and-hyphen-only name); in general it is not idempotent — the
    `::`-split rejoins with `/` which a second pass hyphenates, and the
    bracket rewrite can create a new hyphen run — see the counterexample. -/
theorem c3_amended (x : List Char) (h1 : ':' ∉ x) (h2 : '[' ∉ x) :
    sanitize_nodeid (sanitize_nodeid x) = sanitize_nodeid x := by
  by_cases hp : x = emptyParen
  · subst hp
    decide
  · have hs1 := sanitize_eq_collapse x h1 h2 hp
    have hcol : ':' ∉ collapseHyphens (x.map slashToHyphen) := by
      intro hm
      rcases mem_map_slash x ':' (mem_of_mem_collapse _ ':' hm) with hc | hc
      · exact absurd hc (by decide)
      · exact h1 hc
    have hop : '[' ∉ collapseHyphens (x.map slashToHyphen) := by
      intro hm
      rcases mem_map_slash x '[' (mem_of_mem_collapse _ '[' hm) with hc | hc
      · exact absurd hc (by decide)
      · exact h2 hc
    have hsla : '/' ∉ collapseHyphens (x.map slashToHyphen) :=
      fun hm => slash_not_mem_map x (mem_of_mem_collapse _ '/' hm)
    have hyne : collapseHyphens (x.map slashToHyphen) ≠ emptyParen :=
      fun hcon => hp (map_eq_paren x (collapse_eq_paren _ hcon))
    have hs2 := sanitize_eq_collapse (collapseHyphens (x.map slashToHyphen)) hcol hop hyne
    rw [hs1, hs2, map_slash_id _ hsla, collapse_of_noAdj _ (collapse_noAdj _)]

/-- C3 witness: the sanitizer is idempotent on the concrete
    colon-and-bracket-free identity `"tests-mod.py"`. -/
theorem c3_witness :
    (':' ∉ ("tests-mod.py".toList) ∧ '[' ∉ ("tests-mod.py".toList)) ∧
    sanitize_nodeid (sanitize_nodeid ("tests-mod.py".toList))
      = sanitize_nodeid ("tests-mod.py".toList) :=
  ⟨⟨by decide, by decide⟩, c3_amended ("tests-mod.py".toList) (by decide) (by decide)⟩
